import Mathlib

/-!
Shallow embedding of the batch split client in `tools/api/lalalai_splitter.py`
(upload collection, batch registry seeding, the polling loop `batch_check` /
`check_multiple_files`, the final report, and `batch_download`), of the status
dispatch of `check_task` in `api-v1/python/lalalai_splitter.py`, and of the
Content-Disposition helpers `make_content_disposition` /
`get_filename_from_content_disposition` together with the library functions
they call (`cgi.parse_header`, `urllib.parse.quote` / `unquote`).

Python strings are modelled as `String` (or `List Char` for the header
helpers), floats returned by the service (`time.perf_counter()`, the split
`duration`) as `ℚ`, raised exceptions as `Except String` / `Option`, and the
mutable `batch_status` dictionary as an association list in insertion order.
-/

namespace LalalBatch

/-- One value of the `batch_status` dictionary of `tools/api/lalalai_splitter.py`.
Seeding (`batch_split_async`) writes `start_time` and `finished`; the other
fields are only ever written by `check_multiple_files`, so a missing dictionary
key is modelled as `none`. -/
structure JobRecord where
  start_time : ℚ
  finished : Bool := false
  end_time : Option ℚ := none
  state : Option String := none
  stem_track_url : Option String := none
  back_track_url : Option String := none
  duration : Option ℚ := none
  message : Option String := none
  deriving Repr, DecidableEq

/-- The `check_list` / `batch_status` dictionary: job id to record, in
insertion order (Python dictionaries preserve it, and `batch_download` and the
report iterate in that order). -/
abbrev Registry := List (String × JobRecord)

/-- The `file_result["split"]` JSON object of one check response entry.  Each
field is `none` when the corresponding key is missing from the response (a
lookup of a missing key raises `KeyError` in the source, landing in the bare
`except` of `check_multiple_files`). -/
structure SplitObj where
  stem_track : Option String := none
  back_track : Option String := none
  duration : Option ℚ := none
  deriving Repr, DecidableEq

/-- One `file_result` value of `check_result["result"]` in
`check_multiple_files`.  `taskState` is `file_result["task"]["state"]`
(`none` when `task` or `state` is missing), `split` is `file_result["split"]`
(`none` when missing). -/
structure FileResult where
  taskState : Option String := none
  split : Option SplitObj := none
  deriving Repr, DecidableEq

/-- Outcome of one bulk status request in `check_multiple_files`: `failure`
models a raised transport error from `urlopen` as well as the explicit
`raise RuntimeError(check_result["error"])` on `status == "error"`; `ok`
carries the `check_result["result"].items()` list. -/
inductive CheckResponse where
  | failure (err : String)
  | ok (result : List (String × FileResult))
  deriving Repr, DecidableEq

/-- Net effect of the bare `except` clause of `check_multiple_files` on a
record: `state = "error"`, `message = "unexpected error"`.  Note it does not
set `finished`. -/
def exceptClause (r : JobRecord) : JobRecord :=
  { r with state := some ("error"), message := some ("unexpected error") }

/-- Effect of the `task_state == "success"` branch of `check_multiple_files`
on an unfinished record.  The source writes `end_time`, `state`, `finished`
first and only then reads `file_result["split"]["stem_track"]` etc., so a
missing key raises `KeyError` after those writes and the bare `except`
overwrites `state`; the partial writes before the failing lookup survive. -/
def successWrites (now : ℚ) (r : JobRecord) (sp : Option SplitObj) : JobRecord :=
  let r1 := { r with end_time := some now, state := some ("success"), finished := true }
  match sp with
  | none => exceptClause r1
  | some sp =>
    match sp.stem_track with
    | none => exceptClause r1
    | some st =>
      let r2 := { r1 with stem_track_url := some st }
      match sp.back_track with
      | none => exceptClause r2
      | some bt =>
        let r3 := { r2 with back_track_url := some bt }
        match sp.duration with
        | none => exceptClause r3
        | some d => { r3 with duration := some d }

/-- Effect of the body of the `for file_id, file_result in ...` loop of
`check_multiple_files` on the record of `file_id`.  A missing
`task`/`state` key raises inside the `try` and the bare `except` runs;
`task_state == "error"` sets `state` and `finished` unconditionally;
`task_state == "success"` is guarded by `if not check_list[file_id]["finished"]`;
any other state string falls through all three `if`s and changes nothing. -/
def processFileResult (now : ℚ) (r : JobRecord) (fr : FileResult) : JobRecord :=
  match fr.taskState with
  | none => exceptClause r
  | some task_state =>
    if task_state = "error" then { r with state := some ("error"), finished := true }
    else if task_state = "success" then
      if r.finished then r else successWrites now r fr.split
    else r

/-- Update of the entry of key `k` in the registry (`check_list[file_id] = ...`
assignments); an absent key leaves the registry unchanged, mirroring the
`if file_id not in check_list: continue` guard. -/
def updateEntry (l : Registry) (k : String) (f : JobRecord → JobRecord) : Registry :=
  l.map (fun p => if p.1 = k then (p.1, f p.2) else p)

/-- The whole `for file_id, file_result in check_result["result"].items()`
loop of `check_multiple_files`, applied to the registry. -/
def apply_check_items (now : ℚ) (items : List (String × FileResult)) (l : Registry) : Registry :=
  items.foldl (fun acc p => updateEntry acc p.1 (fun r => processFileResult now r p.2)) l

/-- Identifiers carried by the bulk status request of `check_multiple_files`:
the source builds `query_args = ...` from `",".join(check_list.keys())`, i.e.
every key of the registry. -/
def check_request_ids (check_list : Registry) : List String :=
  check_list.map (fun p => p.1)

/-- The joined `id` parameter of the status request. -/
def check_request_id_param (check_list : Registry) : String :=
  String.intercalate (",") (check_request_ids check_list)

/-- One call of `check_multiple_files`: a transport failure or an
error-status response raises (`Except.error`), otherwise the response items
are folded into the registry. -/
def check_multiple_files (now : ℚ) (check_list : Registry) (resp : CheckResponse) :
    Except String Registry :=
  match resp with
  | CheckResponse.failure e => Except.error e
  | CheckResponse.ok result => Except.ok (apply_check_items now result check_list)

/-- The loop break condition of `batch_check`: `not_finished` stays `False`
iff every record has `finished` set. -/
def allFinished (l : Registry) : Bool :=
  l.all (fun p => p.2.finished)

/-- The `while True` polling loop of `batch_check`, driven by the stream of
responses the service returns (one per iteration, with the
`time.perf_counter()` value of that iteration).  `Except.error` is the
uncaught exception from `check_multiple_files`; `Except.ok none` means the
stream was exhausted with the loop still polling; `Except.ok (some l)` is the
`break` with the final registry, taken as soon as every record is finished. -/
def batch_check_loop (check_list : Registry) :
    List (ℚ × CheckResponse) → Except String (Option Registry)
  | [] => Except.ok none
  | (now, resp) :: rest =>
    match check_multiple_files now check_list resp with
    | Except.error e => Except.error e
    | Except.ok newList =>
      if allFinished newList then Except.ok (some newList)
      else batch_check_loop newList rest

/-- One step of the report loop after `All files done` in `batch_check`.  The
accumulator is `(total_duration, max_time)`.  For a finished record the source
reads `value["end_time"]` and `value["duration"]` unconditionally (`KeyError`
when absent) and divides `elapsed_time_ms / value["duration"]`
(`ZeroDivisionError` when the duration is zero). -/
def reportEntry (acc : ℚ × ℚ) (p : String × JobRecord) : Except String (ℚ × ℚ) :=
  if p.2.finished = true then
    match p.2.end_time with
    | none => Except.error ("KeyError: end_time")
    | some endt =>
      let elapsed_time_ms : ℚ := endt - p.2.start_time
      match p.2.duration with
      | none => Except.error ("KeyError: duration")
      | some dur =>
        let total_duration := acc.1 + dur
        let max_time := if elapsed_time_ms > acc.2 then elapsed_time_ms else acc.2
        if dur = 0 then Except.error ("ZeroDivisionError")
        else Except.ok (total_duration, max_time)
  else Except.ok acc

/-- The report of `batch_check` (lines after the polling loop): per-item
metrics folded over the registry, then the final line whose average speed is
`max_time / total_duration` when `total_duration > 0` and the literal string
`undef` otherwise, modelled as `none`.  Returns
`(max_time, total_duration, average speed)`. -/
def batch_report (batch_status : Registry) : Except String (ℚ × ℚ × Option ℚ) :=
  match batch_status.foldlM reportEntry ((0 : ℚ), (0 : ℚ)) with
  | Except.error e => Except.error e
  | Except.ok (total_duration, max_time) =>
    Except.ok (max_time, total_duration,
      if total_duration > 0 then some (max_time / total_duration) else none)

/-- Download URLs attempted by `batch_download`, in order: for every record,
`value.get("stem_track_url")` then `value.get("back_track_url")`, each
attempted only when truthy (present and nonempty).  Per-track failures are
caught and logged, so the attempt list is independent of download outcomes. -/
def batch_download_attempts (batch_status : Registry) : List String :=
  batch_status.foldl (fun acc p =>
    let acc1 := match p.2.stem_track_url with
      | some u => if u = "" then acc else acc ++ [u]
      | none => acc
    match p.2.back_track_url with
    | some u => if u = "" then acc1 else acc1 ++ [u]
    | none => acc1) []

/-- The upload loop of `batch_process_async`: each upload outcome is processed
in order, a success appends its file id to `files_ids`, a raised exception is
caught by the per-file `except` which only prints and continues. -/
def collect_file_ids (uploads : List (Except String String)) : List String :=
  uploads.foldl (fun acc r => match r with
    | Except.ok file_id => acc ++ [file_id]
    | Except.error _ => acc) []

/-- The seeding loop of `batch_split_async`: one fresh record per submitted
file id, with `start_time` from `time.perf_counter()` and `finished = False`. -/
def seed_batch_status (files_ids : List String) (t : ℚ) : Registry :=
  files_ids.map (fun file_id => (file_id, { start_time := t : JobRecord }))

/-- Decision taken by one iteration of `check_task` in
`api-v1/python/lalalai_splitter.py` from `task_status.get("status")`:
return the result, raise, or sleep and poll again. -/
inductive CheckTaskAction where
  | finish
  | raiseError (msg : String)
  | poll
  deriving Repr, DecidableEq

/-- Status dispatch of `check_task` (v1 client): `success` returns,
`cancelled` raises `Task was cancelled`, `progress` keeps polling, and any
other value (including a missing key, which `.get` turns into `None`) raises
`Unknown task status: ...`. -/
def check_task_step (status : Option String) : CheckTaskAction :=
  if status = some ("success") then CheckTaskAction.finish
  else if status = some ("cancelled") then CheckTaskAction.raiseError ("Task was cancelled")
  else if status = some ("progress") then CheckTaskAction.poll
  else CheckTaskAction.raiseError
    ("Unknown task status: " ++ (match status with | some v => v | none => ("None")))

/-- Membership lookup in the registry (first match; keys are unique in every
run since the registry is seeded from a Python dictionary). -/
def lookupEntry (k : String) : Registry → Option JobRecord
  | [] => none
  | p :: rest => if p.1 = k then some p.2 else lookupEntry k rest

end LalalBatch

namespace ContentDisposition

/-!
Embedding of `make_content_disposition` and
`get_filename_from_content_disposition` from `tools/api/lalalai_splitter.py`,
together with the library routines they rely on: `cgi.parse_header` (with its
helper `cgi._parseparam`), `urllib.parse.quote` and `urllib.parse.unquote`.
Python strings are modelled as `List Char`; special characters are built with
`Char.ofNat` to keep them out of literals.
-/

/-- The double quote character. -/
def dq : Char := Char.ofNat 34

/-- The backslash character. -/
def bsl : Char := Char.ofNat 92

/-- The apostrophe character. -/
def apos : Char := Char.ofNat 39

/-- The semicolon character. -/
def semi : Char := Char.ofNat 59

/-- The percent character. -/
def pct : Char := Char.ofNat 37

/-- The equals-sign character. -/
def eqc : Char := Char.ofNat 61

/-- Python `str.strip()` whitespace test, restricted to the ASCII whitespace
characters (space, tab, newline, carriage return, vertical tab, form feed);
the headers handled here are ASCII. -/
def pyIsSpace (c : Char) : Bool :=
  decide (c.toNat = 32 ∨ c.toNat = 9 ∨ c.toNat = 10 ∨ c.toNat = 13 ∨ c.toNat = 11 ∨ c.toNat = 12)

/-- Python `str.strip()`: drop whitespace from both ends. -/
def pyStrip (s : List Char) : List Char :=
  ((s.dropWhile pyIsSpace).reverse.dropWhile pyIsSpace).reverse

/-- Python `str.lower()` on the ASCII range (the parameter names lowered by
`cgi.parse_header` are ASCII). -/
def pyLower (s : List Char) : List Char :=
  s.map (fun c => if 65 ≤ c.toNat ∧ c.toNat ≤ 90 then Char.ofNat (c.toNat + 32) else c)

/-- Python `str.replace(old, new)` specialised to a two-character pattern
`[a, b]` replaced by the single character `r` — the two uses in
`cgi.parse_header` are `.replace(backslash backslash, backslash)` and
`.replace(backslash quote, quote)`.  Like `str.replace`, the scan is
left-to-right and non-overlapping. -/
def replace2 (a b r : Char) : List Char → List Char
  | [] => []
  | [c] => [c]
  | c :: d :: rest =>
    if c = a ∧ d = b then r :: replace2 a b r rest
    else c :: replace2 a b r (d :: rest)

/-- Python `str.split(sep)` specialised to the two-character separator
`[a, b]` (the `filename*` handler splits on two apostrophes).  Non-overlapping
left-to-right scan; no separator yields the singleton list. -/
def split2 (a b : Char) : List Char → List (List Char)
  | [] => [[]]
  | [c] => [[c]]
  | c :: d :: rest =>
    if c = a ∧ d = b then [] :: split2 a b rest
    else
      match split2 a b (d :: rest) with
      | g :: gs => (c :: g) :: gs
      | [] => [[c]]

/-- Python `s.count(backslash quote, 0, end)` used by `cgi._parseparam`:
non-overlapping occurrences of the backslash-quote pair. -/
def escQuoteCount : List Char → Nat
  | c :: d :: rest =>
    if c = bsl ∧ d = dq then 1 + escQuoteCount rest else escQuoteCount (d :: rest)
  | _ => 0

/-- The quote parity `cgi._parseparam` computes for a candidate prefix:
`s.count(quote, 0, end) - s.count(backslash quote, 0, end)`. -/
def countQ (pre : List Char) : Int :=
  (pre.count dq : Int) - escQuoteCount pre

/-- The `end` search of `cgi._parseparam`: starting from the first `;`, keep
moving to the next `;` while the candidate is positive and the quote parity of
the prefix before it is odd; `-1` (no acceptable `;`) becomes `len(s)`.
Equivalently: the first index `i` holding a `;` with `i = 0` or even quote
parity of `s[:i]`, else `len(s)`.  The scan carries the remaining suffix. -/
def findEndAux (s : List Char) : Nat → List Char → Nat
  | _, [] => s.length
  | i, c :: rest =>
    if c = semi ∧ (i = 0 ∨ countQ (s.take i) % 2 = 0) then i
    else findEndAux s (i + 1) rest

/-- The split position `cgi._parseparam` uses for the current string. -/
def findEnd (s : List Char) : Nat := findEndAux s 0 s

/-- The generator `cgi._parseparam(s)`: while the string starts with `;`,
strip it, cut at `findEnd`, yield the stripped piece and continue with the
rest. -/
def parseparam : List Char → List (List Char)
  | [] => []
  | c :: s =>
    if c = semi then
      pyStrip (s.take (findEnd s)) :: parseparam (s.drop (findEnd s))
    else []
termination_by l => l.length
decreasing_by
  simp only [List.length_drop, List.length_cons]
  omega

/-- Python `str.find(ch)` as an optional index. -/
def pyFindChar (a : Char) : List Char → Option Nat
  | [] => none
  | c :: rest => if c = a then some 0 else (pyFindChar a rest).map (fun i => i + 1)

/-- One iteration of the `pdict` loop of `cgi.parse_header`: a part without
`=` contributes nothing; otherwise the name is the lowered, stripped text
before the first `=`, the value the stripped text after it, unquoted and
unescaped when it is wrapped in double quotes. -/
def paramEntry (p : List Char) : Option (List Char × List Char) :=
  match pyFindChar eqc p with
  | none => none
  | some i =>
    let name := pyLower (pyStrip (p.take i))
    let value := pyStrip (p.drop (i + 1))
    if 2 ≤ value.length ∧ value.head? = some dq ∧ value.getLast? = some dq then
      some (name, replace2 bsl dq dq (replace2 bsl bsl bsl (value.drop 1).dropLast))
    else some (name, value)

/-- `cgi.parse_header(line)`: parse parts from `; + line`, the first part is
the main value (the disposition), the rest feed the parameter dictionary. -/
def parse_header (line : List Char) : List Char × List (List Char × List Char) :=
  match parseparam (semi :: line) with
  | [] => ([], [])
  | key :: parts => (key, parts.filterMap paramEntry)

/-- Lookup in the parameter dictionary built by `cgi.parse_header`; a Python
`dict` keeps the last value written for a key. -/
def dictGet : List (List Char × List Char) → List Char → Option (List Char)
  | [], _ => none
  | (k, v) :: rest, key =>
    match dictGet rest key with
    | some r => some r
    | none => if k = key then some v else none

/-- UTF-8 encoding of one scalar value (`str.encode` in
`urllib.parse.quote`). -/
def utf8EncodeChar (c : Char) : List Nat :=
  if c.toNat < 128 then [c.toNat]
  else if c.toNat < 2048 then [192 + c.toNat / 64, 128 + c.toNat % 64]
  else if c.toNat < 65536 then
    [224 + c.toNat / 4096, 128 + (c.toNat / 64) % 64, 128 + c.toNat % 64]
  else
    [240 + c.toNat / 262144, 128 + (c.toNat / 4096) % 64, 128 + (c.toNat / 64) % 64,
      128 + c.toNat % 64]

/-- UTF-8 encoding of a whole string. -/
def utf8Bytes (f : List Char) : List Nat :=
  (f.map utf8EncodeChar).flatten

/-- Bytes `urllib.parse.quote` leaves unescaped with its default
`safe = slash`: the always-safe set (ASCII letters, digits, underscore, dot,
hyphen, tilde) plus the slash. -/
def safeByte (b : Nat) : Bool :=
  decide ((65 ≤ b ∧ b ≤ 90) ∨ (97 ≤ b ∧ b ≤ 122) ∨ (48 ≤ b ∧ b ≤ 57) ∨
    b = 95 ∨ b = 46 ∨ b = 45 ∨ b = 126 ∨ b = 47)

/-- Upper-case hexadecimal digit of a value below 16 (`quote` emits upper
case). -/
def hexUpper (n : Nat) : Char :=
  if n < 10 then Char.ofNat (48 + n) else Char.ofNat (55 + n)

/-- Percent-encoding of one byte by `urllib.parse.quote`. -/
def quoteByte (b : Nat) : List Char :=
  if safeByte b then [Char.ofNat b] else [pct, hexUpper (b / 16), hexUpper (b % 16)]

/-- `urllib.parse.quote(s)` with the default safe set: percent-encode the
UTF-8 bytes. -/
def pyQuote (f : List Char) : List Char :=
  ((utf8Bytes f).map quoteByte).flatten

/-- Value of a hexadecimal digit character, both cases (`unquote` accepts
either). -/
def hexVal (c : Char) : Option Nat :=
  if 48 ≤ c.toNat ∧ c.toNat ≤ 57 then some (c.toNat - 48)
  else if 65 ≤ c.toNat ∧ c.toNat ≤ 70 then some (c.toNat - 55)
  else if 97 ≤ c.toNat ∧ c.toNat ≤ 102 then some (c.toNat - 87)
  else none

/-- The byte stream `urllib.parse.unquote` assembles: a `%` followed by two
hexadecimal digits contributes that byte, anything else contributes its own
code (the inputs fed to it here are pure ASCII, where a literal character and
a byte coincide). -/
def percentDecode : List Char → List Nat
  | [] => []
  | c :: rest =>
    if c = pct then
      match rest with
      | h1 :: h2 :: rest2 =>
        match hexVal h1, hexVal h2 with
        | some v1, some v2 => (16 * v1 + v2) :: percentDecode rest2
        | _, _ => c.toNat :: percentDecode (h1 :: h2 :: rest2)
      | [h1] => c.toNat :: percentDecode [h1]
      | [] => c.toNat :: percentDecode []
    else c.toNat :: percentDecode rest
termination_by l => l.length
decreasing_by
  all_goals simp only [List.length_cons, List.length_nil]
  all_goals omega

/-- Guard for a UTF-8 continuation byte. -/
def utf8Cont (b : Nat) : Prop := 128 ≤ b ∧ b < 192

instance (b : Nat) : Decidable (utf8Cont b) := by unfold utf8Cont; infer_instance

/-- Scalar value of a two-byte sequence. -/
def utf8Val2 (b b1 : Nat) : Char := Char.ofNat ((b - 192) * 64 + (b1 - 128))

/-- Scalar value of a three-byte sequence. -/
def utf8Val3 (b b1 b2 : Nat) : Char :=
  Char.ofNat ((b - 224) * 4096 + (b1 - 128) * 64 + (b2 - 128))

/-- Scalar value of a four-byte sequence. -/
def utf8Val4 (b b1 b2 b3 : Nat) : Char :=
  Char.ofNat ((b - 240) * 262144 + (b1 - 128) * 4096 + (b2 - 128) * 64 + (b3 - 128))

/-- Guard for a three-byte sequence: continuation bytes, no overlong form, no
surrogate. -/
def utf8Guard3 (b b1 b2 : Nat) : Prop :=
  utf8Cont b1 ∧ utf8Cont b2 ∧ (b = 224 → 160 ≤ b1) ∧ ¬ (b = 237 ∧ 160 ≤ b1)

instance (b b1 b2 : Nat) : Decidable (utf8Guard3 b b1 b2) := by
  unfold utf8Guard3; infer_instance

/-- Guard for a four-byte sequence: continuation bytes, no overlong form,
nothing beyond the last scalar value. -/
def utf8Guard4 (b b1 b2 b3 : Nat) : Prop :=
  utf8Cont b1 ∧ utf8Cont b2 ∧ utf8Cont b3 ∧ (b = 240 → 144 ≤ b1) ∧ (b = 244 → b1 < 144)

instance (b b1 b2 b3 : Nat) : Decidable (utf8Guard4 b b1 b2 b3) := by
  unfold utf8Guard4; infer_instance

/-- One UTF-8 decoding step: the leading byte dispatches on its range (ASCII,
ill-formed lead, two-, three- or four-byte lead), consumes the continuation
bytes it needs after validating them and yields the scalar value and the
remaining bytes. -/
def utf8Step (b : Nat) (rest : List Nat) : Option (Char × List Nat) :=
  if b < 128 then some (Char.ofNat b, rest)
  else if b < 194 then none
  else if b < 224 then
    match rest with
    | b1 :: rest1 => if utf8Cont b1 then some (utf8Val2 b b1, rest1) else none
    | [] => none
  else if b < 240 then
    match rest with
    | b1 :: b2 :: rest2 => if utf8Guard3 b b1 b2 then some (utf8Val3 b b1 b2, rest2) else none
    | _ => none
  else if b < 245 then
    match rest with
    | b1 :: b2 :: b3 :: rest3 =>
      if utf8Guard4 b b1 b2 b3 then some (utf8Val4 b b1 b2 b3, rest3) else none
    | _ => none
  else none

/-- Strict UTF-8 decoding of a byte list (the `bytes.decode(encoding)` step
of `unquote`; invalid sequences, which Python would map to replacement
characters, are modelled as `none` — they never arise from round-trip
inputs): decode one scalar at a time until the bytes are exhausted. -/
def utf8Decode (l : List Nat) : Option (List Char) :=
  match l with
  | [] => some []
  | b :: rest =>
    match hs : utf8Step b rest with
    | none => none
    | some (c, rest2) => (utf8Decode rest2).map (fun cs => c :: cs)
termination_by l.length
decreasing_by
  have hlen : rest2.length ≤ rest.length := by
    unfold utf8Step at hs
    repeat' split at hs
    all_goals
      first
        | exact Option.noConfusion hs
        | (simp only [Option.some.injEq, Prod.mk.injEq] at hs
           obtain ⟨h1, h2⟩ := hs
           subst h2
           try simp only [List.length_cons]
           omega)
  simp only [List.length_cons]
  omega

/-- The `utf-8` encoding name appearing in the extended filename form. -/
def utf8Name : List Char := ("utf-8").toList

/-- `urllib.parse.unquote(quoted, encoding)` as used by
`get_filename_from_content_disposition`: only the `utf-8` codec is modelled
(any other name raises a lookup error on first use, `none` here); literal
ASCII characters and percent-decoded bytes form one byte stream which is
UTF-8 decoded. -/
def pyUnquote (quoted : List Char) (encoding : List Char) : Option (List Char) :=
  if encoding = utf8Name then utf8Decode (percentDecode quoted) else none

/-- The test `filename.encode(ascii)` performs: every scalar value below
128. -/
def isAsciiList (f : List Char) : Bool :=
  f.all (fun c => c.toNat < 128)

/-- The fixed text of the plain form up to the opening quote
(`attachment; filename=` followed by a double quote; the call site always
uses the default `disposition = attachment`). -/
def dispPrefix : List Char := ("attachment; filename=").toList ++ [dq]

/-- The fixed text of the extended form (`attachment; filename*=utf-8` and
two apostrophes). -/
def dispPrefixExt : List Char := ("attachment; filename*=utf-8").toList ++ [apos, apos]

/-- `make_content_disposition(filename)`: ASCII names go into the quoted
form, others into the RFC 5987 extended form with percent-encoding. -/
def make_content_disposition (filename : List Char) : List Char :=
  if isAsciiList filename then dispPrefix ++ filename ++ [dq]
  else dispPrefixExt ++ pyQuote filename

/-- The `filename` parameter key. -/
def filenameKey : List Char := ("filename").toList

/-- The `filename*` parameter key. -/
def filenameStarKey : List Char := ("filename*").toList

/-- The `filename*` fallback of `get_filename_from_content_disposition`: an
absent or falsy (empty) value falls through to the final
`raise ValueError`, a present one is split on two apostrophes into
encoding and quoted text (a split arity other than two raises) and
unquoted. -/
def extFilename (params : List (List Char × List Char)) : Option (List Char) :=
  match dictGet params filenameStarKey with
  | none => none
  | some fs =>
    if fs = [] then none
    else
      match split2 apos apos fs with
      | [encoding, quoted] => pyUnquote quoted encoding
      | _ => none

/-- `get_filename_from_content_disposition(header)`: parse the header, return
the truthy `filename` parameter if any, otherwise decode the `filename*`
parameter; `none` models the raised `ValueError`. -/
def get_filename_from_content_disposition (header : List Char) : Option (List Char) :=
  let params := (parse_header header).2
  match dictGet params filenameKey with
  | some fn => if fn = [] then extFilename params else some fn
  | none => extFilename params

/-- Absence of an adjacent pair `[a, b]` in a string, the condition under
which `replace2` and the escaped-quote count are inert. -/
def pairFree (a b : Char) : List Char → Bool
  | c :: d :: rest => !(decide (c = a ∧ d = b)) && pairFree a b (d :: rest)
  | _ => true

end ContentDisposition

namespace LalalBatch

/-- Test fixture: a full success snapshot with both track URLs and duration 3. -/
def sampleSuccess : FileResult :=
  { taskState := some ("success"),
    split := some { stem_track := some ("u1"), back_track := some ("u2"), duration := some 3 } }

/-- Test fixture: an error snapshot. -/
def sampleError : FileResult := { taskState := some ("error") }

/-- Test fixture (Scenario B of the spec): the registry of a two-job batch
after one poll iteration in which job `a` succeeded with two track URLs and
job `b` failed.  Note the error branch of `check_multiple_files` sets neither
`end_time` nor `duration`. -/
def scenarioB_final : Registry :=
  [(("a"), { start_time := 0, finished := true, end_time := some 1, state := some ("success"), stem_track_url := some ("u1"), back_track_url := some ("u2"), duration := some 3 }),
   (("b"), { start_time := 0, finished := true, state := some ("error") })]

theorem collect_file_ids_eq_filterMap (uploads : List (Except String String)) :
    collect_file_ids uploads =
      uploads.filterMap (fun r => match r with
        | Except.ok file_id => some file_id
        | Except.error _ => none) := by
  suffices h : ∀ acc, uploads.foldl (fun acc r => match r with
      | Except.ok file_id => acc ++ [file_id]
      | Except.error _ => acc) acc =
      acc ++ uploads.filterMap (fun r => match r with
        | Except.ok file_id => some file_id
        | Except.error _ => none) by
    simpa [collect_file_ids] using h []
  induction uploads with
  | nil => intro acc; simp
  | cons hd tl ih =>
    intro acc
    cases hd with
    | ok v => simp [List.filterMap_cons, ih]
    | error e => simp [List.filterMap_cons, ih]

theorem check_request_ids_updateEntry (l : Registry) (k : String) (f : JobRecord → JobRecord) :
    check_request_ids (updateEntry l k f) = check_request_ids l := by
  induction l with
  | nil => rfl
  | cons p rest ih =>
    simp only [updateEntry, check_request_ids, List.map_cons] at *
    have hd : (if p.1 = k then (p.1, f p.2) else p).1 = p.1 := by split <;> rfl
    rw [hd, ih]

theorem lookupEntry_updateEntry_ne (l : Registry) (k k2 : String) (f : JobRecord → JobRecord)
    (h : k2 ≠ k) : lookupEntry k (updateEntry l k2 f) = lookupEntry k l := by
  induction l with
  | nil => rfl
  | cons p rest ih =>
    simp only [updateEntry, List.map_cons]
    by_cases hp : p.1 = k2
    · rw [if_pos hp]
      have hk : ¬ p.1 = k := by rw [hp]; exact h
      simp only [lookupEntry, if_neg hk]
      simpa only [updateEntry] using ih
    · rw [if_neg hp]
      simp only [lookupEntry]
      by_cases hk : p.1 = k
      · rw [if_pos hk, if_pos hk]
      · rw [if_neg hk, if_neg hk]
        simpa only [updateEntry] using ih

theorem updateEntry_not_mem (l : Registry) (k : String) (f : JobRecord → JobRecord)
    (h : ∀ q ∈ l, q.1 ≠ k) : updateEntry l k f = l := by
  induction l with
  | nil => rfl
  | cons p rest ih =>
    simp only [updateEntry, List.map_cons]
    rw [if_neg (h p (List.mem_cons_self p rest))]
    have := ih (fun q hq => h q (List.mem_cons_of_mem p hq))
    simp only [updateEntry] at this
    rw [this]

theorem check_request_ids_apply_check_items (now : ℚ) (items : List (String × FileResult))
    (l : Registry) : check_request_ids (apply_check_items now items l) = check_request_ids l := by
  induction items generalizing l with
  | nil => rfl
  | cons it rest ih =>
    simp only [apply_check_items, List.foldl_cons] at *
    rw [ih, check_request_ids_updateEntry]

theorem lookupEntry_apply_check_items (now : ℚ) (items : List (String × FileResult))
    (l : Registry) (k : String) (h : ∀ p ∈ items, p.1 ≠ k) :
    lookupEntry k (apply_check_items now items l) = lookupEntry k l := by
  induction items generalizing l with
  | nil => rfl
  | cons it rest ih =>
    simp only [apply_check_items, List.foldl_cons] at *
    rw [ih (updateEntry l it.1 (fun r => processFileResult now r it.2))
        (fun p hp => h p (List.mem_cons_of_mem it hp)),
      lookupEntry_updateEntry_ne l k it.1 _ (h it (List.mem_cons_self it rest))]

theorem apply_check_items_not_mem (now : ℚ) (items : List (String × FileResult))
    (l : Registry) (h : ∀ p ∈ items, ∀ q ∈ l, q.1 ≠ p.1) :
    apply_check_items now items l = l := by
  induction items with
  | nil => rfl
  | cons it rest ih =>
    simp only [apply_check_items, List.foldl_cons] at *
    rw [updateEntry_not_mem l it.1 _ (h it (List.mem_cons_self it rest))]
    exact ih (fun p hp => h p (List.mem_cons_of_mem it hp))

end LalalBatch

namespace LalalBatch

/-- C1 (amended): if a status-check call fails on some iteration (transport
error or a response with error status), the raised `RuntimeError` escalates
out of the polling loop of `batch_check` — there is no `try` around
`check_multiple_files` — and the remaining iterations never run; no Job
Record is modified or marked failed by the failing iteration, since the
exception is raised before the registry-update loop. -/
theorem c1_check_failure_escalates (l : Registry) (now : ℚ) (e : String)
    (rest : List (ℚ × CheckResponse)) :
    batch_check_loop l ((now, CheckResponse.failure e) :: rest) = Except.error e ∧
    check_multiple_files now l (CheckResponse.failure e) = Except.error e := by
  exact ⟨rfl, rfl⟩

/-- C1 counterexample: with one pending job, a failed status check on the
first iteration makes the whole polling loop raise, even though the next
response would have finished every job — the loop does not abandon the
iteration and retry, contradicting the claim that a status-check failure is
never escalated out of the polling loop. -/
theorem c1_check_failure_escalates_cex :
    batch_check_loop [(("f1"), { start_time := 0 })]
      [((1 : ℚ), CheckResponse.failure ("service error")),
       ((2 : ℚ), CheckResponse.ok [(("f1"), sampleSuccess)])] =
      Except.error ("service error") := rfl

/-- C2: the polling loop of `batch_check` stops and proceeds to the report
iff the batch is drained: whenever the loop breaks with a final registry,
every record of it is finished, and as soon as an iteration leaves every
record finished the loop breaks immediately with that registry, whatever
responses would follow. -/
theorem c2_loop_stops_iff_drained :
    (∀ (l : Registry) (stream : List (ℚ × CheckResponse)) (final : Registry),
        batch_check_loop l stream = Except.ok (some final) → allFinished final = true) ∧
    (∀ (l : Registry) (now : ℚ) (resp : CheckResponse) (rest : List (ℚ × CheckResponse))
        (newList : Registry),
        check_multiple_files now l resp = Except.ok newList → allFinished newList = true →
        batch_check_loop l ((now, resp) :: rest) = Except.ok (some newList)) := by
  constructor
  · intro l stream
    induction stream generalizing l with
    | nil => intro final h; simp [batch_check_loop] at h
    | cons hd rest ih =>
      obtain ⟨now, resp⟩ := hd
      intro final h
      cases hc : check_multiple_files now l resp with
      | error e =>
        simp only [batch_check_loop, hc] at h
        exact Except.noConfusion h
      | ok newList =>
        simp only [batch_check_loop, hc] at h
        by_cases hf : allFinished newList = true
        · rw [if_pos hf] at h
          have : newList = final := by
            have := h
            simp only [Except.ok.injEq, Option.some.injEq] at this
            exact this
          rw [← this]
          exact hf
        · rw [if_neg hf] at h
          exact ih newList final h
  · intro l now resp rest newList hc hf
    simp only [batch_check_loop, hc, hf, if_true]

/-- C2 witness: a drained one-record registry makes the loop break at once. -/
theorem c2_loop_stops_iff_drained_witness :
    allFinished [(("a"), ({ start_time := 0, finished := true } : JobRecord))] = true ∧
    batch_check_loop [(("a"), { start_time := 0, finished := true })]
      [((0 : ℚ), CheckResponse.ok [])] =
      Except.ok (some [(("a"), { start_time := 0, finished := true })]) :=
  ⟨c2_loop_stops_iff_drained.1 [(("a"), { start_time := 0, finished := true })]
      [((0 : ℚ), CheckResponse.ok [])]
      [(("a"), { start_time := 0, finished := true })] (by rfl),
   c2_loop_stops_iff_drained.2 [(("a"), { start_time := 0, finished := true })] 0
      (CheckResponse.ok []) []
      [(("a"), { start_time := 0, finished := true })] (by rfl) (by rfl)⟩

end LalalBatch

namespace LalalBatch

/-- C3 counterexample: a record that reached the terminal success state is
changed by a later error snapshot.  With a two-job batch the loop is still
polling for job `b`, so the second snapshot for job `a` is really processed:
after a success snapshot `a` is finished with `state = "success"`, and the
following error snapshot overwrites its state to `"error"` (the
`task_state == "error"` branch is not guarded by `finished`), so the record
transitions out of a terminal state and into a terminal state twice. -/
theorem c3_terminal_overwrite_cex :
    check_multiple_files 1 [(("a"), { start_time := 0 }), (("b"), { start_time := 0 })]
      (CheckResponse.ok [(("a"), sampleSuccess)]) =
      Except.ok [(("a"), { start_time := 0, finished := true, end_time := some 1, state := some ("success"), stem_track_url := some ("u1"), back_track_url := some ("u2"), duration := some 3 }), (("b"), { start_time := 0 })] ∧
    check_multiple_files 2 [(("a"), { start_time := 0, finished := true, end_time := some 1, state := some ("success"), stem_track_url := some ("u1"), back_track_url := some ("u2"), duration := some 3 }), (("b"), { start_time := 0 })]
      (CheckResponse.ok [(("a"), sampleError)]) =
      Except.ok [(("a"), { start_time := 0, finished := true, end_time := some 1, state := some ("error"), stem_track_url := some ("u1"), back_track_url := some ("u2"), duration := some 3 }), (("b"), { start_time := 0 })] ∧
    some ("error") ≠ some ("success") := by
  refine ⟨rfl, rfl, by decide⟩

/-- C3 (amended): once a record is finished, a later success snapshot changes
nothing — the success-transition fields (`end_time`, `state`, the track URLs,
`duration`) are written only on the first success snapshot observed while the
record is unfinished; an error snapshot, however, always rewrites
`state = "error"` and `finished = True`, even on a record that already
reached a terminal state. -/
theorem c3_terminal_writes :
    (∀ (now : ℚ) (r : JobRecord) (fr : FileResult),
        r.finished = true → fr.taskState = some ("success") →
        processFileResult now r fr = r) ∧
    (∀ (now : ℚ) (r : JobRecord) (fr : FileResult),
        fr.taskState = some ("error") →
        processFileResult now r fr = { r with state := some ("error"), finished := true }) := by
  constructor
  · intro now r fr hfin hst
    simp [processFileResult, hst, hfin]
  · intro now r fr hst
    simp [processFileResult, hst]

/-- C3 witness: concrete instances of both conjuncts. -/
theorem c3_terminal_writes_witness :
    processFileResult 7 { start_time := 0, finished := true, state := some ("error") }
      sampleSuccess = { start_time := 0, finished := true, state := some ("error") } ∧
    processFileResult 7 { start_time := 0 } sampleError =
      { start_time := 0, state := some ("error"), finished := true } :=
  ⟨c3_terminal_writes.1 7 { start_time := 0, finished := true, state := some ("error") }
      sampleSuccess rfl rfl,
   c3_terminal_writes.2 7 { start_time := 0 } sampleError rfl⟩

/-- C4 counterexample: with one finished and one pending record, the bulk
status request is built from every registry key, not only from the ids still
non-terminal — the id of the already-finished record is queried again. -/
theorem c4_query_ids_cex :
    check_request_ids [(("a"), { start_time := 0, finished := true }),
        (("b"), { start_time := 0 })] = [("a"), ("b")] ∧
    ([("a"), ("b")] : List String) ≠ [("b")] := by
  refine ⟨rfl, by decide⟩

/-- C4 (amended): the single bulk status request of each poll iteration
carries the identifier of every Job Record in the registry — terminal records
included, so ids of finished jobs keep being queried on every iteration. -/
theorem c4_query_ids_all :
    ∀ (l : Registry) (p : String × JobRecord), p ∈ l → p.1 ∈ check_request_ids l := by
  intro l p hp
  exact List.mem_map_of_mem (fun q => q.1) hp

/-- C4 witness: the key of a finished record is in the request. -/
theorem c4_query_ids_all_witness :
    ("a") ∈ check_request_ids [(("a"), { start_time := 0, finished := true })] :=
  c4_query_ids_all [(("a"), { start_time := 0, finished := true })]
    (("a"), { start_time := 0, finished := true }) (by simp)

/-- C5: the registry seeded by `batch_split_async` has exactly one Job Record
per successfully uploaded input, and an upload failure is transparent: it
contributes no file id and leaves the ids collected from the other files
unchanged, so it does not block the remaining uploads or the submission. -/
theorem c5_registry_counts_uploads :
    (∀ (uploads : List (Except String String)) (t : ℚ),
        (seed_batch_status (collect_file_ids uploads) t).length =
          (uploads.filter (fun r => match r with
            | Except.ok _ => true
            | Except.error _ => false)).length) ∧
    (∀ (pre post : List (Except String String)) (e : String),
        collect_file_ids (pre ++ Except.error e :: post) = collect_file_ids (pre ++ post)) := by
  constructor
  · intro uploads t
    rw [seed_batch_status, List.length_map, collect_file_ids_eq_filterMap]
    induction uploads with
    | nil => rfl
    | cons hd tl ih =>
      cases hd with
      | ok v => simpa [List.filterMap_cons, List.filter_cons] using ih
      | error e => simpa [List.filterMap_cons, List.filter_cons] using ih
  · intro pre post e
    rw [collect_file_ids_eq_filterMap, collect_file_ids_eq_filterMap,
      List.filterMap_append, List.filterMap_append, List.filterMap_cons]

/-- C6: frame conditions of one response-processing pass.  First, the
registry keys after processing any response items are exactly the keys
before: no Job Record is ever created (or dropped) by a response, so an id
present in the registry is re-polled on the next iteration.  Second, a
registry id that the response does not mention keeps exactly its old record.
Third, response items whose ids are not in the registry are ignored
completely: the registry is left untouched. -/
theorem c6_response_registry_frame :
    (∀ (now : ℚ) (items : List (String × FileResult)) (l : Registry),
        check_request_ids (apply_check_items now items l) = check_request_ids l) ∧
    (∀ (now : ℚ) (items : List (String × FileResult)) (l : Registry) (k : String),
        (∀ p ∈ items, p.1 ≠ k) →
        lookupEntry k (apply_check_items now items l) = lookupEntry k l) ∧
    (∀ (now : ℚ) (items : List (String × FileResult)) (l : Registry),
        (∀ p ∈ items, ∀ q ∈ l, q.1 ≠ p.1) →
        apply_check_items now items l = l) :=
  ⟨check_request_ids_apply_check_items, lookupEntry_apply_check_items,
   apply_check_items_not_mem⟩

/-- C6 witness: a response about an unknown id `z` leaves a one-record
registry untouched, and a registry id absent from the response keeps its
record. -/
theorem c6_response_registry_frame_witness :
    check_request_ids (apply_check_items 1 [(("z"), sampleError)]
        [(("a"), { start_time := 0 })]) =
      check_request_ids [(("a"), { start_time := 0 })] ∧
    lookupEntry ("a") (apply_check_items 1 [(("z"), sampleError)]
        [(("a"), { start_time := 0 })]) =
      lookupEntry ("a") [(("a"), { start_time := 0 })] ∧
    apply_check_items 1 [(("z"), sampleError)] [(("a"), { start_time := 0 })] =
      [(("a"), { start_time := 0 })] :=
  ⟨c6_response_registry_frame.1 1 [(("z"), sampleError)] [(("a"), { start_time := 0 })],
   c6_response_registry_frame.2.1 1 [(("z"), sampleError)] [(("a"), { start_time := 0 })]
      ("a") (by decide),
   c6_response_registry_frame.2.2 1 [(("z"), sampleError)] [(("a"), { start_time := 0 })]
      (by decide)⟩

end LalalBatch

namespace LalalBatch

/-- C7 counterexample: a drained batch whose only succeeded job has source
duration 0 — the total duration across succeeded jobs is 0, yet the report
raises `ZeroDivisionError` at the per-job `elapsed_time_ms / value["duration"]`
division instead of reaching the guarded `undef` average. -/
theorem c7_zero_duration_cex :
    batch_report [(("a"), { start_time := 0, finished := true, end_time := some 5, state := some ("success"), duration := some 0 })] =
      Except.error ("ZeroDivisionError") := rfl

/-- C7 (amended): the final average-speed value is computed under an explicit
`total_duration > 0` guard — whenever the report loop completes, the average
is `max_time / total_duration` for a positive total and the explicit `undef`
marker (`none`) otherwise, and that guard itself never divides by zero; but
the per-job speed division inside the loop does fault (`ZeroDivisionError`)
on any finished record whose duration is 0, so a batch with zero total
duration reaches the `undef` marker only when no finished record enters the
loop. -/
theorem c7_report_avg_undefined :
    (∀ (l : Registry) (max_time total_duration : ℚ) (avg : Option ℚ),
        batch_report l = Except.ok (max_time, total_duration, avg) →
        (total_duration > 0 → avg = some (max_time / total_duration)) ∧
        (¬ total_duration > 0 → avg = none)) ∧
    (∀ (k : String) (r : JobRecord) (endt : ℚ),
        r.finished = true → r.end_time = some endt → r.duration = some 0 →
        batch_report [(k, r)] = Except.error ("ZeroDivisionError")) := by
  constructor
  · intro l max_time total_duration avg h
    rw [batch_report] at h
    cases hf : l.foldlM reportEntry ((0 : ℚ), (0 : ℚ)) with
    | error e =>
      rw [hf] at h
      exact Except.noConfusion h
    | ok acc =>
      obtain ⟨t2, m2⟩ := acc
      rw [hf] at h
      simp only [Except.ok.injEq, Prod.mk.injEq] at h
      obtain ⟨hm, ht, havg⟩ := h
      subst hm; subst ht
      constructor
      · intro hpos; rw [← havg, if_pos hpos]
      · intro hneg; rw [← havg, if_neg hneg]
  · intro k r endt hfin he hd
    simp [batch_report, List.foldlM, reportEntry, hfin, he, hd]

/-- C7 witness: a report with positive total yields the guarded average, and
a finished record of duration 0 makes the report raise. -/
theorem c7_report_avg_undefined_witness :
    (((2 : ℚ) > 0 → some ((5 : ℚ) / 2) = some ((5 : ℚ) / 2)) ∧
      (¬ (2 : ℚ) > 0 → some ((5 : ℚ) / 2) = none)) ∧
    batch_report [(("a"), { start_time := 0, finished := true, end_time := some 2, duration := some 0 })] =
      Except.error ("ZeroDivisionError") :=
  ⟨c7_report_avg_undefined.1
      [(("a"), { start_time := 0, finished := true, end_time := some 5, duration := some 2 })]
      5 2 (some ((5 : ℚ) / 2))
      (by norm_num [batch_report, reportEntry, List.foldlM, Except.bind, Except.pure]),
   c7_report_avg_undefined.2 ("a")
      { start_time := 0, finished := true, end_time := some 2, duration := some 0 } 2 rfl rfl rfl⟩

/-- C8 (Scenario B): two jobs, `a` succeeds with two result URLs, `b` fails.
The polling loop drains and `batch_download` would attempt exactly `u1` and
`u2` (nothing for the failed job), but the Batch Report does not complete:
the report loop reads `value["end_time"]` of the failed-but-finished record
`b`, a key the error branch never wrote, and raises `KeyError` — and since
`batch_split_async` runs the report inside `batch_check` *before*
`batch_download`, the claimed 1-succeeded/1-failed report never appears. -/
theorem c8_scenario_b_report_keyerror :
    batch_check_loop [(("a"), { start_time := 0 }), (("b"), { start_time := 0 })]
      [((1 : ℚ), CheckResponse.ok [(("a"), sampleSuccess), (("b"), sampleError)])] =
      Except.ok (some scenarioB_final) ∧
    batch_download_attempts scenarioB_final = [("u1"), ("u2")] ∧
    batch_report scenarioB_final = Except.error ("KeyError: end_time") := by
  refine ⟨rfl, rfl, rfl⟩

/-- C9 counterexample: a snapshot whose state string is unrecognized
(`bananas`) is silently ignored by the batch client — the poll returns
normally and the record is byte-for-byte unchanged, with no protocol error
surfaced anywhere (only the v1 single-task client raises a distinct
`Unknown task status` error). -/
theorem c9_unknown_state_ignored_cex :
    check_multiple_files 1 [(("a"), { start_time := 0 })]
      (CheckResponse.ok [(("a"), { taskState := some ("bananas") })]) =
      Except.ok [(("a"), { start_time := 0 })] ∧
    check_task_step (some ("bananas")) =
      CheckTaskAction.raiseError ("Unknown task status: bananas") := by
  refine ⟨rfl, rfl⟩

/-- C9 (amended): in the batch client an unrecognized state string falls
through every branch of `check_multiple_files` and the record is left
unchanged (silently re-polled); only the v1 client `check_task` surfaces an
unrecognized status as a raised `Unknown task status` error, distinct from
the business `cancelled` failure message. -/
theorem c9_unknown_state_handling :
    (∀ (now : ℚ) (r : JobRecord) (fr : FileResult) (s : String),
        fr.taskState = some s → s ≠ ("error") → s ≠ ("success") →
        processFileResult now r fr = r) ∧
    (∀ (status : Option String),
        status ≠ some ("success") → status ≠ some ("cancelled") → status ≠ some ("progress") →
        ∃ msg, check_task_step status = CheckTaskAction.raiseError msg ∧
          msg ≠ ("Task was cancelled")) := by
  constructor
  · intro now r fr s hst h1 h2
    simp [processFileResult, hst, h1, h2]
  · intro status h1 h2 h3
    cases status with
    | none => exact ⟨("Unknown task status: None"), rfl, by decide⟩
    | some v =>
      refine ⟨("Unknown task status: " ++ v), ?_, ?_⟩
      · unfold check_task_step
        rw [if_neg h1, if_neg h2, if_neg h3]
      · intro hcon
        have hlen := congrArg String.length hcon
        rw [String.length_append] at hlen
        have h21 : ("Unknown task status: ").length = 21 := rfl
        have h18 : ("Task was cancelled").length = 18 := rfl
        rw [h21, h18] at hlen
        omega

/-- C9 witness: the `bananas` state at a concrete record and status. -/
theorem c9_unknown_state_handling_witness :
    processFileResult 3 { start_time := 0 } { taskState := some ("bananas") } =
      { start_time := 0 } ∧
    ∃ msg, check_task_step (some ("bananas")) = CheckTaskAction.raiseError msg ∧
      msg ≠ ("Task was cancelled") :=
  ⟨c9_unknown_state_handling.1 3 { start_time := 0 } { taskState := some ("bananas") }
      ("bananas") rfl (by decide) (by decide),
   c9_unknown_state_handling.2 (some ("bananas")) (by decide) (by decide) (by decide)⟩

end LalalBatch

namespace ContentDisposition

theorem char_toNat_ofNat (n : Nat) (h : n.isValidChar) : (Char.ofNat n).toNat = n := by
  unfold Char.ofNat
  rw [dif_pos h]
  rfl

theorem char_ofNat_toNat (c : Char) : Char.ofNat c.toNat = c := by
  have h : Nat.isValidChar c.toNat := c.valid
  have h2 : (Char.ofNat c.toNat).val.toNat = c.val.toNat := char_toNat_ofNat _ h
  exact Char.eq_of_val_eq (UInt32.ext h2)

theorem char_valid_lt (c : Char) : c.toNat < 1114112 := by
  unfold Char.toNat
  cases c.valid with
  | inl h => exact Nat.lt_trans h (by decide)
  | inr h => exact h.2

theorem char_not_surrogate (c : Char) : ¬ (55296 ≤ c.toNat ∧ c.toNat < 57344) := by
  unfold Char.toNat
  cases c.valid with
  | inl h => intro hc; omega
  | inr h => intro hc; obtain ⟨h1, _⟩ := h; omega

set_option maxHeartbeats 2000000 in
theorem utf8Decode_cons (b : Nat) (rest : List Nat) :
    utf8Decode (b :: rest) =
      match utf8Step b rest with
      | none => none
      | some (c, rest2) => (utf8Decode rest2).map (fun cs => c :: cs) := by
  rw [utf8Decode.eq_def]
  split
  · rename_i heq
    exact absurd heq (by simp)
  · rename_i b2 rest2 heq
    obtain ⟨rfl, rfl⟩ : b2 = b ∧ rest2 = rest := by
      injection heq with h1 h2
      exact ⟨h1.symm, h2.symm⟩
    split <;> (rename_i hstep; simp only [hstep])

theorem utf8Decode_nil : utf8Decode [] = some [] := by
  rw [utf8Decode.eq_def]

theorem utf8Step_enc1 (c : Char) (h1 : c.toNat < 128) (t : List Nat) :
    utf8Step c.toNat t = some (c, t) := by
  unfold utf8Step
  rw [if_pos h1, char_ofNat_toNat]

theorem utf8Step_enc2 (c : Char) (h1 : ¬ c.toNat < 128) (h2 : c.toNat < 2048) (t : List Nat) :
    utf8Step (192 + c.toNat / 64) ((128 + c.toNat % 64) :: t) = some (c, t) := by
  unfold utf8Step
  simp only [if_neg (show ¬ 192 + c.toNat / 64 < 128 by omega),
    if_neg (show ¬ 192 + c.toNat / 64 < 194 by omega),
    if_pos (show 192 + c.toNat / 64 < 224 by omega),
    if_pos (show utf8Cont (128 + c.toNat % 64) by unfold utf8Cont; omega)]
  have harg : (192 + c.toNat / 64 - 192) * 64 + (128 + c.toNat % 64 - 128) = c.toNat := by omega
  unfold utf8Val2
  rw [harg, char_ofNat_toNat]

theorem utf8Step_enc3 (c : Char) (h2 : ¬ c.toNat < 2048) (h3 : c.toNat < 65536) (t : List Nat) :
    utf8Step (224 + c.toNat / 4096)
      ((128 + (c.toNat / 64) % 64) :: (128 + c.toNat % 64) :: t) = some (c, t) := by
  have hs := char_not_surrogate c
  unfold utf8Step
  simp only [if_neg (show ¬ 224 + c.toNat / 4096 < 128 by omega),
    if_neg (show ¬ 224 + c.toNat / 4096 < 194 by omega),
    if_neg (show ¬ 224 + c.toNat / 4096 < 224 by omega),
    if_pos (show 224 + c.toNat / 4096 < 240 by omega),
    if_pos (show utf8Guard3 (224 + c.toNat / 4096) (128 + c.toNat / 64 % 64)
        (128 + c.toNat % 64) by
      unfold utf8Guard3 utf8Cont
      refine ⟨by omega, by omega, by omega, by omega⟩)]
  have harg : (224 + c.toNat / 4096 - 224) * 4096 + (128 + c.toNat / 64 % 64 - 128) * 64 +
      (128 + c.toNat % 64 - 128) = c.toNat := by omega
  unfold utf8Val3
  rw [harg, char_ofNat_toNat]

theorem utf8Step_enc4 (c : Char) (h3 : ¬ c.toNat < 65536) (t : List Nat) :
    utf8Step (240 + c.toNat / 262144)
      ((128 + (c.toNat / 4096) % 64) :: (128 + (c.toNat / 64) % 64) ::
        (128 + c.toNat % 64) :: t) = some (c, t) := by
  have hv := char_valid_lt c
  unfold utf8Step
  simp only [if_neg (show ¬ 240 + c.toNat / 262144 < 128 by omega),
    if_neg (show ¬ 240 + c.toNat / 262144 < 194 by omega),
    if_neg (show ¬ 240 + c.toNat / 262144 < 224 by omega),
    if_neg (show ¬ 240 + c.toNat / 262144 < 240 by omega),
    if_pos (show 240 + c.toNat / 262144 < 245 by omega),
    if_pos (show utf8Guard4 (240 + c.toNat / 262144) (128 + c.toNat / 4096 % 64)
        (128 + c.toNat / 64 % 64) (128 + c.toNat % 64) by
      unfold utf8Guard4 utf8Cont
      refine ⟨by omega, by omega, by omega, by omega, by omega⟩)]
  have harg : (240 + c.toNat / 262144 - 240) * 262144 + (128 + c.toNat / 4096 % 64 - 128) * 4096 +
      (128 + c.toNat / 64 % 64 - 128) * 64 + (128 + c.toNat % 64 - 128) = c.toNat := by omega
  unfold utf8Val4
  rw [harg, char_ofNat_toNat]

theorem utf8Decode_encodeChar (c : Char) (t : List Nat) :
    utf8Decode (utf8EncodeChar c ++ t) = (utf8Decode t).map (fun cs => c :: cs) := by
  by_cases h1 : c.toNat < 128
  · have e : utf8EncodeChar c = [c.toNat] := by
      unfold utf8EncodeChar; rw [if_pos h1]
    rw [e, List.cons_append, List.nil_append, utf8Decode_cons, utf8Step_enc1 c h1]
  · by_cases h2 : c.toNat < 2048
    · have e : utf8EncodeChar c = [192 + c.toNat / 64, 128 + c.toNat % 64] := by
        unfold utf8EncodeChar; rw [if_neg h1, if_pos h2]
      rw [e, List.cons_append, List.cons_append, List.nil_append, utf8Decode_cons,
        utf8Step_enc2 c h1 h2]
    · by_cases h3 : c.toNat < 65536
      · have e : utf8EncodeChar c =
            [224 + c.toNat / 4096, 128 + (c.toNat / 64) % 64, 128 + c.toNat % 64] := by
          unfold utf8EncodeChar; rw [if_neg h1, if_neg h2, if_pos h3]
        rw [e, List.cons_append, List.cons_append, List.cons_append, List.nil_append,
          utf8Decode_cons, utf8Step_enc3 c h2 h3]
      · have e : utf8EncodeChar c =
            [240 + c.toNat / 262144, 128 + (c.toNat / 4096) % 64, 128 + (c.toNat / 64) % 64,
              128 + c.toNat % 64] := by
          unfold utf8EncodeChar; rw [if_neg h1, if_neg h2, if_neg h3]
        rw [e, List.cons_append, List.cons_append, List.cons_append, List.cons_append,
          List.nil_append, utf8Decode_cons, utf8Step_enc4 c h3]

theorem utf8Decode_utf8Bytes (f : List Char) : utf8Decode (utf8Bytes f) = some f := by
  induction f with
  | nil => exact utf8Decode_nil
  | cons c rest ih =>
    have he : utf8Bytes (c :: rest) = utf8EncodeChar c ++ utf8Bytes rest := by
      simp [utf8Bytes]
    rw [he, utf8Decode_encodeChar, ih]
    rfl


theorem safeByte_spec (b : Nat) (h : safeByte b = true) :
    (65 ≤ b ∧ b ≤ 90) ∨ (97 ≤ b ∧ b ≤ 122) ∨ (48 ≤ b ∧ b ≤ 57) ∨
    b = 95 ∨ b = 46 ∨ b = 45 ∨ b = 126 ∨ b = 47 := of_decide_eq_true h

theorem hexVal_hexUpper : ∀ n, n < 16 → hexVal (hexUpper n) = some n := by decide

theorem percentDecode_cons_lit (c : Char) (t : List Char) (h : ¬ c = pct) :
    percentDecode (c :: t) = c.toNat :: percentDecode t := by
  rw [percentDecode.eq_def]
  split
  · rename_i heq
    exact absurd heq (by simp)
  · rename_i c2 rest2 heq
    injection heq with hq1 hq2
    subst hq1; subst hq2
    rw [if_neg h]

theorem percentDecode_escape (h1 h2 : Char) (v1 v2 : Nat) (t : List Char)
    (hv1 : hexVal h1 = some v1) (hv2 : hexVal h2 = some v2) :
    percentDecode (pct :: h1 :: h2 :: t) = (16 * v1 + v2) :: percentDecode t := by
  rw [percentDecode.eq_def]
  split
  · rename_i heq
    exact absurd heq (by simp)
  · rename_i c2 rest2 heq
    injection heq with hq1 hq2
    subst hq1; subst hq2
    rw [if_pos rfl]
    split
    · rename_i a b r heq
      injection heq with e1 heq
      injection heq with e2 e3
      subst e1; subst e2; subst e3
      rw [hv1, hv2]
    · rename_i a heq
      exact absurd heq (by simp)
    · rename_i heq
      exact absurd heq (by simp)

theorem percentDecode_quoteByte (b : Nat) (hb : b < 256) (t : List Char) :
    percentDecode (quoteByte b ++ t) = b :: percentDecode t := by
  by_cases hs : safeByte b = true
  · have hr := safeByte_spec b hs
    have hvalid : b.isValidChar := Or.inl (by omega)
    have htn : (Char.ofNat b).toNat = b := char_toNat_ofNat b hvalid
    have hne : ¬ Char.ofNat b = pct := by
      intro hc
      have h37 : (pct).toNat = 37 := rfl
      rw [hc, h37] at htn
      omega
    rw [quoteByte, if_pos hs, List.cons_append, List.nil_append,
      percentDecode_cons_lit _ _ hne, htn]
  · rw [quoteByte, if_neg hs]
    simp only [List.cons_append, List.nil_append]
    rw [percentDecode_escape _ _ (b / 16) (b % 16) t
      (hexVal_hexUpper _ (by omega)) (hexVal_hexUpper _ (by omega))]
    congr 1
    omega

theorem percentDecode_quoteBytes (l : List Nat) (h : ∀ b ∈ l, b < 256) (t : List Char) :
    percentDecode ((l.map quoteByte).flatten ++ t) = l ++ percentDecode t := by
  induction l with
  | nil => simp
  | cons b rest ih =>
    simp only [List.map_cons, List.flatten_cons, List.append_assoc]
    rw [percentDecode_quoteByte b (h b (by simp)) _]
    rw [ih (fun x hx => h x (by simp [hx]))]
    rfl


end ContentDisposition

namespace ContentDisposition

theorem percentDecode_nil : percentDecode [] = [] := by
  rw [percentDecode.eq_def]

theorem utf8EncodeChar_bytes_lt (c : Char) : ∀ b ∈ utf8EncodeChar c, b < 256 := by
  have hv := char_valid_lt c
  intro b hb
  unfold utf8EncodeChar at hb
  split_ifs at hb with h1 h2 h3
  · simp at hb; omega
  · simp at hb; rcases hb with hb | hb <;> omega
  · simp at hb; rcases hb with hb | hb | hb <;> omega
  · simp at hb; rcases hb with hb | hb | hb | hb <;> omega

theorem utf8Bytes_lt (f : List Char) : ∀ b ∈ utf8Bytes f, b < 256 := by
  intro b hb
  unfold utf8Bytes at hb
  simp only [List.mem_flatten, List.mem_map] at hb
  obtain ⟨blk, ⟨c, hc, rfl⟩, hbb⟩ := hb
  exact utf8EncodeChar_bytes_lt c b hbb

theorem pyUnquote_pyQuote (f : List Char) : pyUnquote (pyQuote f) utf8Name = some f := by
  unfold pyUnquote
  rw [if_pos rfl]
  unfold pyQuote
  have hd : percentDecode (((utf8Bytes f).map quoteByte).flatten) = utf8Bytes f := by
    have h2 := percentDecode_quoteBytes (utf8Bytes f) (utf8Bytes_lt f) []
    simpa [percentDecode_nil] using h2
  rw [hd, utf8Decode_utf8Bytes]

theorem pyQuote_chars (f : List Char) :
    ∀ c ∈ pyQuote f, c.toNat = 37 ∨ safeByte c.toNat = true ∨
      (48 ≤ c.toNat ∧ c.toNat ≤ 57) ∨ (65 ≤ c.toNat ∧ c.toNat ≤ 70) := by
  intro c hc
  unfold pyQuote at hc
  simp only [List.mem_flatten, List.mem_map] at hc
  obtain ⟨blk, ⟨b, hb, rfl⟩, hcc⟩ := hc
  have hb256 : b < 256 := utf8Bytes_lt f b hb
  unfold quoteByte at hcc
  split_ifs at hcc with hs
  · simp at hcc
    subst hcc
    right; left
    have hr := safeByte_spec b hs
    have he : (Char.ofNat b).toNat = b := char_toNat_ofNat b (Or.inl (by omega))
    rw [he]
    exact hs
  · simp at hcc
    rcases hcc with rfl | rfl | rfl
    · left; rfl
    · right; right
      unfold hexUpper
      split_ifs with hlt
      · have he : (Char.ofNat (48 + b / 16)).toNat = 48 + b / 16 :=
          char_toNat_ofNat _ (Or.inl (by omega))
        rw [he]; left; omega
      · have he : (Char.ofNat (55 + b / 16)).toNat = 55 + b / 16 :=
          char_toNat_ofNat _ (Or.inl (by omega))
        rw [he]; right; omega
    · right; right
      unfold hexUpper
      split_ifs with hlt
      · have he : (Char.ofNat (48 + b % 16)).toNat = 48 + b % 16 :=
          char_toNat_ofNat _ (Or.inl (by omega))
        rw [he]; left; omega
      · have he : (Char.ofNat (55 + b % 16)).toNat = 55 + b % 16 :=
          char_toNat_ofNat _ (Or.inl (by omega))
        rw [he]; right; omega

theorem pyQuote_facts (f : List Char) : ∀ c ∈ pyQuote f,
    ¬ c = semi ∧ ¬ c = apos ∧ ¬ c = eqc ∧ ¬ c = dq ∧ pyIsSpace c = false := by
  intro c hc
  have hclass := pyQuote_chars f c hc
  have hn : c.toNat = 37 ∨ (65 ≤ c.toNat ∧ c.toNat ≤ 90) ∨ (97 ≤ c.toNat ∧ c.toNat ≤ 122) ∨
      (48 ≤ c.toNat ∧ c.toNat ≤ 57) ∨ c.toNat = 95 ∨ c.toNat = 46 ∨ c.toNat = 45 ∨
      c.toNat = 126 ∨ c.toNat = 47 ∨ (65 ≤ c.toNat ∧ c.toNat ≤ 70) := by
    rcases hclass with h | h | h | h
    · exact Or.inl h
    · have hr := safeByte_spec _ h
      tauto
    · tauto
    · tauto
  have hsemi : (semi).toNat = 59 := rfl
  have hapos : (apos).toNat = 39 := rfl
  have heqc : (eqc).toNat = 61 := rfl
  have hdq : (dq).toNat = 34 := rfl
  refine ⟨?_, ?_, ?_, ?_, ?_⟩
  · intro hc2; rw [hc2, hsemi] at hn; omega
  · intro hc2; rw [hc2, hapos] at hn; omega
  · intro hc2; rw [hc2, heqc] at hn; omega
  · intro hc2; rw [hc2, hdq] at hn; omega
  · unfold pyIsSpace
    rw [decide_eq_false_iff_not]
    intro hsp
    omega

theorem pyQuote_ne_nil (f : List Char) (c0 : Char) (h : c0 ∈ f) : pyQuote f ≠ [] := by
  intro hq
  unfold pyQuote at hq
  rw [List.flatten_eq_nil_iff] at hq
  have hb : ∀ b ∈ utf8Bytes f, False := by
    intro b hb
    have hq2 := hq (quoteByte b) (List.mem_map_of_mem _ hb)
    unfold quoteByte at hq2
    split_ifs at hq2 <;> simp at hq2
  have : ∃ b, b ∈ utf8Bytes f := by
    unfold utf8Bytes
    have hcne : utf8EncodeChar c0 ≠ [] := by
      unfold utf8EncodeChar
      split_ifs <;> simp
    cases he : utf8EncodeChar c0 with
    | nil => exact absurd he hcne
    | cons b bs =>
      refine ⟨b, ?_⟩
      rw [List.mem_flatten]
      exact ⟨utf8EncodeChar c0, List.mem_map_of_mem _ h, by rw [he]; simp⟩
  obtain ⟨b, hbm⟩ := this
  exact hb b hbm

end ContentDisposition

namespace ContentDisposition

theorem escQuoteCount_eq_zero (l : List Char) (h : pairFree bsl dq l = true) :
    escQuoteCount l = 0 := by
  induction l with
  | nil => rfl
  | cons c rest ih =>
    cases rest with
    | nil => rfl
    | cons d rest2 =>
      rw [pairFree] at h
      rw [Bool.and_eq_true] at h
      obtain ⟨h1, h2⟩ := h
      rw [Bool.not_eq_eq_eq_not, Bool.not_true, decide_eq_false_iff_not] at h1
      rw [escQuoteCount, if_neg h1]
      exact ih h2

theorem pairFree_of_not_mem (a b : Char) (l : List Char) (h : b ∉ l) :
    pairFree a b l = true := by
  induction l with
  | nil => rfl
  | cons c rest ih =>
    cases rest with
    | nil => rfl
    | cons d rest2 =>
      rw [pairFree, Bool.and_eq_true]
      constructor
      · rw [Bool.not_eq_eq_eq_not, Bool.not_true, decide_eq_false_iff_not]
        intro hc
        exact h (by simp [hc.2])
      · exact ih (fun hm => h (List.mem_cons_of_mem c hm))

theorem pairFree_append (a b : Char) (A B : List Char)
    (hA : pairFree a b A = true) (hB : pairFree a b B = true)
    (hd : ∀ x y, A.getLast? = some x → B.head? = some y → ¬ (x = a ∧ y = b)) :
    pairFree a b (A ++ B) = true := by
  induction A with
  | nil => simpa using hB
  | cons c A2 ih =>
    cases A2 with
    | nil =>
      cases B with
      | nil => simpa using hA
      | cons y B2 =>
        simp only [List.cons_append, List.nil_append]
        rw [pairFree, Bool.and_eq_true]
        constructor
        · rw [Bool.not_eq_eq_eq_not, Bool.not_true, decide_eq_false_iff_not]
          exact hd c y rfl rfl
        · exact hB
    | cons d A3 =>
      simp only [List.cons_append]
      rw [pairFree, Bool.and_eq_true]
      rw [pairFree, Bool.and_eq_true] at hA
      constructor
      · exact hA.1
      · have hlast : (d :: A3).getLast? = (c :: d :: A3).getLast? := by
          rw [List.getLast?_cons_cons]
        exact ih hA.2 (fun x y hx hy => hd x y (by rw [← hlast]; exact hx) hy)

theorem replace2_id (a b r : Char) (l : List Char) (h : pairFree a b l = true) :
    replace2 a b r l = l := by
  induction l with
  | nil => rfl
  | cons c rest ih =>
    cases rest with
    | nil => rfl
    | cons d rest2 =>
      rw [pairFree, Bool.and_eq_true] at h
      obtain ⟨h1, h2⟩ := h
      rw [Bool.not_eq_eq_eq_not, Bool.not_true, decide_eq_false_iff_not] at h1
      rw [replace2, if_neg h1]
      rw [ih h2]

theorem split2_no_pair (a b : Char) (l : List Char) (h : pairFree a b l = true) :
    split2 a b l = [l] := by
  induction l with
  | nil => rfl
  | cons c rest ih =>
    cases rest with
    | nil => rfl
    | cons d rest2 =>
      rw [pairFree, Bool.and_eq_true] at h
      obtain ⟨h1, h2⟩ := h
      rw [Bool.not_eq_eq_eq_not, Bool.not_true, decide_eq_false_iff_not] at h1
      rw [split2, if_neg h1, ih h2]

theorem pyStrip_eq_self (s : List Char)
    (h1 : ∀ c, s.head? = some c → pyIsSpace c = false)
    (h2 : ∀ c, s.getLast? = some c → pyIsSpace c = false) :
    pyStrip s = s := by
  unfold pyStrip
  have e1 : s.dropWhile pyIsSpace = s := by
    cases s with
    | nil => rfl
    | cons c t =>
      rw [List.dropWhile_cons, if_neg]
      rw [h1 c rfl]
      simp
  rw [e1]
  have e2 : s.reverse.dropWhile pyIsSpace = s.reverse := by
    cases hr : s.reverse with
    | nil => rfl
    | cons c t =>
      rw [List.dropWhile_cons, if_neg]
      have hc : s.getLast? = some c := by
        rw [← List.head?_reverse, hr]
        rfl
      rw [h2 c hc]
      simp
  rw [e2, List.reverse_reverse]

theorem findEndAux_no_semi (s : List Char) (i : Nat) (l : List Char)
    (h : ∀ c ∈ l, ¬ c = semi) : findEndAux s i l = s.length := by
  induction l generalizing i with
  | nil => rfl
  | cons c rest ih =>
    rw [findEndAux, if_neg]
    · exact ih (i + 1) (fun d hd => h d (List.mem_cons_of_mem c hd))
    · intro hc
      exact h c (List.mem_cons_self c rest) hc.1

theorem findEndAux_reject (s : List Char) (i : Nat) (l : List Char)
    (h : ∀ k, l.get? k = some semi → i + k ≠ 0 ∧ ¬ countQ (s.take (i + k)) % 2 = 0) :
    findEndAux s i l = s.length := by
  induction l generalizing i with
  | nil => rfl
  | cons c rest ih =>
    rw [findEndAux, if_neg]
    · refine ih (i + 1) ?_
      intro k hk
      have hins : (c :: rest).get? (k + 1) = some semi := by simpa using hk
      have hr := h (k + 1) hins
      have harith : i + 1 + k = i + (k + 1) := by omega
      rw [harith]
      exact hr
    · intro hc
      obtain ⟨hcs, hor⟩ := hc
      have h0 := h 0 (by simp [hcs])
      cases hor with
      | inl h1 =>
        exact h0.1 (by omega)
      | inr h2 =>
        refine h0.2 ?_
        have : i + 0 = i := by omega
        rw [this]
        exact h2

end ContentDisposition

namespace ContentDisposition

theorem parseparam_nil : parseparam [] = [] := by
  rw [parseparam.eq_def]

theorem parseparam_cons_semi (s : List Char) :
    parseparam (semi :: s) =
      pyStrip (s.take (findEnd s)) :: parseparam (s.drop (findEnd s)) := by
  rw [parseparam.eq_def]
  split
  · rename_i heq
    exact absurd heq (by simp)
  · rename_i c2 s2 heq
    injection heq with e1 e2
    subst e1
    subst e2
    rw [if_pos rfl]

theorem pyStrip_cons_space (s : List Char) :
    pyStrip (Char.ofNat 32 :: s) = pyStrip s := by
  unfold pyStrip
  rw [List.dropWhile_cons, if_pos (by decide)]

end ContentDisposition

namespace ContentDisposition

theorem findEnd_value_part (F : List Char) (hdq : dq ∉ F) :
    findEnd (((" filename=").toList ++ [dq]) ++ F ++ [dq]) =
      ((((" filename=").toList ++ [dq]) ++ F) ++ [dq]).length := by
  apply findEndAux_reject
  intro k hk
  set A : List Char := (" filename=").toList ++ [dq] with hA
  have hAlen : A.length = 11 := rfl
  by_cases hk11 : k < 11
  · exfalso
    have h1 : ((A ++ F) ++ [dq]).get? k = (A ++ F).get? k :=
      List.get?_append (by simp [hAlen]; omega)
    have h2 : (A ++ F).get? k = A.get? k := List.get?_append (by omega)
    rw [h1, h2] at hk
    have hmem : semi ∈ A := List.get?_mem hk
    revert hmem
    decide
  · have hkAF : k < (A ++ F).length := by
      by_contra hge
      push_neg at hge
      have h1 : ((A ++ F) ++ [dq]).get? k = [dq].get? (k - (A ++ F).length) :=
        List.get?_append_right hge
      rw [h1] at hk
      rcases Nat.lt_or_ge (k - (A ++ F).length) 1 with hlt | hge2
      · interval_cases h : (k - (A ++ F).length)
        · simp at hk
          exact absurd hk (by decide)
      · rw [List.get?_eq_none.mpr (by simpa using hge2)] at hk
        exact Option.noConfusion hk
    constructor
    · omega
    · have htake : (((A ++ F) ++ [dq]).take (0 + k)) = A ++ F.take (k - 11) := by
        rw [Nat.zero_add]
        rw [List.take_append_eq_append_take]
        rw [List.take_append_eq_append_take]
        rw [List.take_of_length_le (by omega)]
        rw [show [dq].take (k - ((A ++ F).length)) = [] from by
          rw [List.take_eq_nil_iff.mpr]
          left
          omega]
        rw [List.append_nil, hAlen]
      rw [htake]
      have hcount : (A ++ F.take (k - 11)).count dq = 1 := by
        rw [List.count_append]
        have hA1 : A.count dq = 1 := by decide
        have hF0 : (F.take (k - 11)).count dq = 0 :=
          List.count_eq_zero.mpr (fun hmem => hdq (List.take_subset _ _ hmem))
        omega
      have hesc : escQuoteCount (A ++ F.take (k - 11)) = 0 := by
        apply escQuoteCount_eq_zero
        apply pairFree_append
        · decide
        · exact pairFree_of_not_mem _ _ _ (fun hmem => hdq (List.take_subset _ _ hmem))
        · intro x y hx hy
          have hxv : x = dq := by
            have : A.getLast? = some dq := rfl
            rw [this] at hx
            injection hx with hx
            exact hx.symm
          intro hcon
          rw [hxv] at hcon
          exact absurd hcon.1 (by decide)
      unfold countQ
      rw [hcount, hesc]
      decide

end ContentDisposition

namespace ContentDisposition

theorem paramEntry_filename (F : List Char) (hdq : dq ∉ F) :
    paramEntry ((("filename=").toList ++ [dq]) ++ F ++ [dq]) =
      some ((("filename").toList), replace2 bsl dq dq (replace2 bsl bsl bsl F)) := by
  have hfind : pyFindChar eqc ((("filename=").toList ++ [dq]) ++ F ++ [dq]) = some 8 := rfl
  have hname : pyLower (pyStrip (((("filename=").toList ++ [dq]) ++ F ++ [dq]).take 8)) =
      ("filename").toList := rfl
  have hdrop : ((("filename=").toList ++ [dq]) ++ F ++ [dq]).drop 9 = dq :: (F ++ [dq]) := rfl
  have hlast : (dq :: (F ++ [dq])).getLast? = some dq := by
    rw [← List.cons_append]
    exact List.getLast?_concat _
  have hval : pyStrip (dq :: (F ++ [dq])) = dq :: (F ++ [dq]) := by
    apply pyStrip_eq_self
    · intro c hc
      simp only [List.head?_cons, Option.some.injEq] at hc
      subst hc
      decide
    · intro c hc
      rw [hlast] at hc
      injection hc with hc
      subst hc
      decide
  have hcond : 2 ≤ (dq :: (F ++ [dq])).length ∧ (dq :: (F ++ [dq])).head? = some dq ∧
      (dq :: (F ++ [dq])).getLast? = some dq := by
    refine ⟨by simp, by simp, hlast⟩
  have hcore : ((dq :: (F ++ [dq])).drop 1).dropLast = F := by
    simp only [List.drop_one, List.tail_cons]
    exact List.dropLast_concat
  unfold paramEntry
  rw [hfind]
  simp only [hname, hdrop, hval]
  rw [if_pos hcond]
  rw [hcore]

theorem parse_header_ascii (F : List Char) (hdq : dq ∉ F) :
    parse_header ((dispPrefix ++ F) ++ [dq]) =
      (("attachment").toList,
        [((("filename").toList), replace2 bsl dq dq (replace2 bsl bsl bsl F))]) := by
  unfold parse_header
  rw [parseparam_cons_semi]
  have hfe : findEnd ((dispPrefix ++ F) ++ [dq]) = 10 := rfl
  rw [hfe]
  have htake : ((dispPrefix ++ F) ++ [dq]).take 10 = ("attachment").toList := rfl
  rw [htake]
  have hdrop : ((dispPrefix ++ F) ++ [dq]).drop 10 =
      semi :: (((" filename=").toList ++ [dq]) ++ F ++ [dq]) := rfl
  rw [hdrop]
  rw [parseparam_cons_semi]
  rw [findEnd_value_part F hdq]
  rw [List.take_length, List.drop_length, parseparam_nil]
  have hs1 : pyStrip (("attachment").toList) = ("attachment").toList := rfl
  rw [hs1]
  have hM : ((" filename=").toList ++ [dq]) ++ F ++ [dq] =
      Char.ofNat 32 :: ((("filename=").toList ++ [dq]) ++ F ++ [dq]) := rfl
  rw [hM, pyStrip_cons_space]
  have hs2 : pyStrip ((("filename=").toList ++ [dq]) ++ F ++ [dq]) =
      (("filename=").toList ++ [dq]) ++ F ++ [dq] := by
    apply pyStrip_eq_self
    · intro c hc
      have hh : (((("filename=").toList ++ [dq]) ++ F ++ [dq])).head? = some (Char.ofNat 102) :=
        rfl
      rw [hh] at hc
      injection hc with hc
      subst hc
      decide
    · intro c hc
      have hl : ((((("filename=").toList ++ [dq]) ++ F) ++ [dq])).getLast? = some dq :=
        List.getLast?_concat _
      rw [hl] at hc
      injection hc with hc
      subst hc
      decide
  rw [hs2]
  simp only [List.filterMap_cons, paramEntry_filename F hdq]
  rfl

theorem roundtrip_ascii (F : List Char) (hascii : isAsciiList F = true)
    (hdq : dq ∉ F) (hne : F ≠ []) (hbb : pairFree bsl bsl F = true) :
    get_filename_from_content_disposition (make_content_disposition F) = some F := by
  unfold make_content_disposition
  rw [if_pos hascii]
  unfold get_filename_from_content_disposition
  rw [parse_header_ascii F hdq]
  rw [replace2_id _ _ _ _ hbb, replace2_id _ _ _ _ (pairFree_of_not_mem _ _ _ hdq)]
  have hget : dictGet [((("filename").toList), F)] filenameKey = some F := by
    unfold dictGet
    rw [if_pos (by decide)]
    rfl
  simp only [hget]
  rw [if_neg hne]

end ContentDisposition

namespace ContentDisposition

theorem split2_utf8_label (Q : List Char) (hapos : apos ∉ Q) :
    split2 apos apos ((("utf-8").toList ++ [apos, apos]) ++ Q) = [("utf-8").toList, Q] := by
  have hq : split2 apos apos Q = [Q] := split2_no_pair _ _ _ (pairFree_of_not_mem _ _ _ hapos)
  have h5 : split2 apos apos (apos :: apos :: Q) = [] :: [Q] := by
    rw [split2, if_pos ⟨rfl, rfl⟩, hq]
  have h4 : split2 apos apos (Char.ofNat 56 :: apos :: apos :: Q) = [Char.ofNat 56] :: [Q] := by
    rw [split2, if_neg (by decide), h5]
  have h3 : split2 apos apos (Char.ofNat 45 :: Char.ofNat 56 :: apos :: apos :: Q) =
      [Char.ofNat 45, Char.ofNat 56] :: [Q] := by
    rw [split2, if_neg (by decide), h4]
  have h2 : split2 apos apos (Char.ofNat 102 :: Char.ofNat 45 :: Char.ofNat 56 ::
      apos :: apos :: Q) = [Char.ofNat 102, Char.ofNat 45, Char.ofNat 56] :: [Q] := by
    rw [split2, if_neg (by decide), h3]
  have h1 : split2 apos apos (Char.ofNat 116 :: Char.ofNat 102 :: Char.ofNat 45 ::
      Char.ofNat 56 :: apos :: apos :: Q) =
      [Char.ofNat 116, Char.ofNat 102, Char.ofNat 45, Char.ofNat 56] :: [Q] := by
    rw [split2, if_neg (by decide), h2]
  have h0 : split2 apos apos (Char.ofNat 117 :: Char.ofNat 116 :: Char.ofNat 102 ::
      Char.ofNat 45 :: Char.ofNat 56 :: apos :: apos :: Q) =
      [Char.ofNat 117, Char.ofNat 116, Char.ofNat 102, Char.ofNat 45, Char.ofNat 56] :: [Q] := by
    rw [split2, if_neg (by decide), h1]
  calc split2 apos apos ((("utf-8").toList ++ [apos, apos]) ++ Q)
      = split2 apos apos (Char.ofNat 117 :: Char.ofNat 116 :: Char.ofNat 102 ::
          Char.ofNat 45 :: Char.ofNat 56 :: apos :: apos :: Q) := rfl
    _ = [("utf-8").toList, Q] := by
        rw [h0]
        rfl

end ContentDisposition

namespace ContentDisposition

theorem paramEntry_filename_star (Q : List Char)
    (hQ : ∀ c ∈ Q, ¬ c = semi ∧ ¬ c = apos ∧ ¬ c = eqc ∧ ¬ c = dq ∧ pyIsSpace c = false)
    (hQne : Q ≠ []) :
    paramEntry (((("filename*=utf-8").toList ++ [apos, apos])) ++ Q) =
      some ((("filename*").toList), (("utf-8").toList ++ [apos, apos]) ++ Q) := by
  have hfind : pyFindChar eqc ((("filename*=utf-8").toList ++ [apos, apos]) ++ Q) =
      some 9 := rfl
  have hname : pyLower (pyStrip (((("filename*=utf-8").toList ++ [apos, apos]) ++ Q).take 9)) =
      ("filename*").toList := rfl
  have hdrop : ((("filename*=utf-8").toList ++ [apos, apos]) ++ Q).drop 10 =
      (("utf-8").toList ++ [apos, apos]) ++ Q := rfl
  have hlastQ : ∀ c, ((("utf-8").toList ++ [apos, apos]) ++ Q).getLast? = some c →
      pyIsSpace c = false := by
    intro c hc
    rw [List.getLast?_append_of_ne_nil _ hQne] at hc
    exact (hQ c (List.mem_of_mem_getLast? hc)).2.2.2.2
  have hval : pyStrip ((("utf-8").toList ++ [apos, apos]) ++ Q) =
      (("utf-8").toList ++ [apos, apos]) ++ Q := by
    apply pyStrip_eq_self
    · intro c hc
      have hh : (((("utf-8").toList ++ [apos, apos]) ++ Q)).head? = some (Char.ofNat 117) := rfl
      rw [hh] at hc
      injection hc with hc
      subst hc
      decide
    · exact hlastQ
  have hnotq : ¬ (2 ≤ ((("utf-8").toList ++ [apos, apos]) ++ Q).length ∧
      ((("utf-8").toList ++ [apos, apos]) ++ Q).head? = some dq ∧
      ((("utf-8").toList ++ [apos, apos]) ++ Q).getLast? = some dq) := by
    intro hcon
    have hh : (((("utf-8").toList ++ [apos, apos]) ++ Q)).head? = some (Char.ofNat 117) := rfl
    rw [hh] at hcon
    have := hcon.2.1
    injection this with heq
    exact absurd heq (by decide)
  unfold paramEntry
  rw [hfind]
  simp only [hname, hdrop, hval]
  rw [if_neg hnotq]

theorem parse_header_ext (Q : List Char)
    (hQ : ∀ c ∈ Q, ¬ c = semi ∧ ¬ c = apos ∧ ¬ c = eqc ∧ ¬ c = dq ∧ pyIsSpace c = false)
    (hQne : Q ≠ []) :
    parse_header (dispPrefixExt ++ Q) =
      (("attachment").toList,
        [((("filename*").toList), (("utf-8").toList ++ [apos, apos]) ++ Q)]) := by
  unfold parse_header
  rw [parseparam_cons_semi]
  have hfe : findEnd (dispPrefixExt ++ Q) = 10 := rfl
  rw [hfe]
  have htake : (dispPrefixExt ++ Q).take 10 = ("attachment").toList := rfl
  rw [htake]
  have hdrop : (dispPrefixExt ++ Q).drop 10 =
      semi :: (((" filename*=utf-8").toList ++ [apos, apos]) ++ Q) := rfl
  rw [hdrop]
  rw [parseparam_cons_semi]
  have hnos : findEnd (((" filename*=utf-8").toList ++ [apos, apos]) ++ Q) =
      (((" filename*=utf-8").toList ++ [apos, apos]) ++ Q).length := by
    apply findEndAux_no_semi
    intro c hc
    rcases List.mem_append.mp hc with hc | hc
    · have hcA : ∀ x ∈ (" filename*=utf-8").toList ++ [apos, apos], ¬ x = semi := by decide
      exact hcA c hc
    · exact (hQ c hc).1
  rw [hnos]
  rw [List.take_length, List.drop_length, parseparam_nil]
  have hs1 : pyStrip (("attachment").toList) = ("attachment").toList := rfl
  rw [hs1]
  have hM : ((" filename*=utf-8").toList ++ [apos, apos]) ++ Q =
      Char.ofNat 32 :: ((("filename*=utf-8").toList ++ [apos, apos]) ++ Q) := rfl
  rw [hM, pyStrip_cons_space]
  have hs2 : pyStrip ((("filename*=utf-8").toList ++ [apos, apos]) ++ Q) =
      (("filename*=utf-8").toList ++ [apos, apos]) ++ Q := by
    apply pyStrip_eq_self
    · intro c hc
      have hh : (((("filename*=utf-8").toList ++ [apos, apos]) ++ Q)).head? =
          some (Char.ofNat 102) := rfl
      rw [hh] at hc
      injection hc with hc
      subst hc
      decide
    · intro c hc
      rw [List.getLast?_append_of_ne_nil _ hQne] at hc
      exact (hQ c (List.mem_of_mem_getLast? hc)).2.2.2.2
  rw [hs2]
  simp only [List.filterMap_cons, paramEntry_filename_star Q hQ hQne]
  rfl

theorem roundtrip_ext (F : List Char) (hascii : isAsciiList F = false) :
    get_filename_from_content_disposition (make_content_disposition F) = some F := by
  have hFne : ∃ c, c ∈ F := by
    cases F with
    | nil => exact absurd hascii (by decide)
    | cons c rest => exact ⟨c, by simp⟩
  obtain ⟨c0, hc0⟩ := hFne
  have hQne : pyQuote F ≠ [] := pyQuote_ne_nil F c0 hc0
  have hQ := pyQuote_facts F
  unfold make_content_disposition
  rw [if_neg (by rw [hascii]; exact Bool.false_ne_true)]
  unfold get_filename_from_content_disposition
  rw [parse_header_ext (pyQuote F) hQ hQne]
  have hget1 : dictGet [((("filename*").toList),
      (("utf-8").toList ++ [apos, apos]) ++ pyQuote F)] filenameKey = none := by
    unfold dictGet
    rw [if_neg (by decide)]
    rfl
  simp only [hget1]
  unfold extFilename
  have hget2 : dictGet [((("filename*").toList),
      (("utf-8").toList ++ [apos, apos]) ++ pyQuote F)] filenameStarKey =
      some ((("utf-8").toList ++ [apos, apos]) ++ pyQuote F) := by
    unfold dictGet
    rw [if_pos (by decide)]
    rfl
  simp only [hget2]
  have hvne : (("utf-8").toList ++ [apos, apos]) ++ pyQuote F ≠ [] := by
    apply List.append_ne_nil_of_ne_nil_left
    decide
  rw [if_neg hvne]
  have hsplit : split2 apos apos ((("utf-8").toList ++ [apos, apos]) ++ pyQuote F) =
      [("utf-8").toList, pyQuote F] :=
    split2_utf8_label (pyQuote F) (fun hm => (hQ apos hm).2.1 rfl)
  simp only [hsplit]
  have hun : pyUnquote (pyQuote F) (("utf-8").toList) = some F := pyUnquote_pyQuote F
  exact hun

end ContentDisposition

namespace ContentDisposition

/-- C10 (amended): the Content-Disposition helpers round-trip for every
nonempty pure-ASCII filename containing neither a double quote nor two
consecutive backslashes, and for every filename containing a non-ASCII
character (which takes the RFC 5987 extended form).  The quoted form performs
no escaping, so the unescaping done by `cgi.parse_header` (`backslash backslash`
to `backslash`) collapses backslash pairs, and an empty name is falsy for the
parser and raises — hence the two extra conditions on the ASCII side. -/
theorem c10_roundtrip (f : List Char) :
    (isAsciiList f = true → dq ∉ f → f ≠ [] → pairFree bsl bsl f = true →
      get_filename_from_content_disposition (make_content_disposition f) = some f) ∧
    (isAsciiList f = false →
      get_filename_from_content_disposition (make_content_disposition f) = some f) :=
  ⟨fun h1 h2 h3 h4 => roundtrip_ascii f h1 h2 h3 h4, fun h => roundtrip_ext f h⟩

/-- C10 counterexample: two pure-ASCII filenames without any quote character
that do not round-trip: the name `a` backslash backslash `b` comes back with
the backslash pair collapsed to a single backslash, and the empty name makes
the parser raise `ValueError` (`none`) because the parsed parameter is falsy. -/
theorem c10_roundtrip_cex :
    get_filename_from_content_disposition (make_content_disposition
        [Char.ofNat 97, bsl, bsl, Char.ofNat 98]) =
      some [Char.ofNat 97, bsl, Char.ofNat 98] ∧
    some [Char.ofNat 97, bsl, Char.ofNat 98] ≠
      some [Char.ofNat 97, bsl, bsl, Char.ofNat 98] ∧
    get_filename_from_content_disposition (make_content_disposition ([] : List Char)) =
      none := by
  refine ⟨?_, by decide, ?_⟩
  · have hmk : make_content_disposition [Char.ofNat 97, bsl, bsl, Char.ofNat 98] =
        (dispPrefix ++ [Char.ofNat 97, bsl, bsl, Char.ofNat 98]) ++ [dq] := rfl
    rw [hmk]
    unfold get_filename_from_content_disposition
    rw [parse_header_ascii [Char.ofNat 97, bsl, bsl, Char.ofNat 98] (by decide)]
    rfl
  · have hmk : make_content_disposition ([] : List Char) = (dispPrefix ++ []) ++ [dq] := rfl
    rw [hmk]
    unfold get_filename_from_content_disposition
    rw [parse_header_ascii [] (by decide)]
    rfl

/-- C10 witness: a one-letter ASCII name and a single non-ASCII character
both round-trip. -/
theorem c10_roundtrip_witness :
    get_filename_from_content_disposition (make_content_disposition [Char.ofNat 97]) =
      some [Char.ofNat 97] ∧
    get_filename_from_content_disposition (make_content_disposition [Char.ofNat 233]) =
      some [Char.ofNat 233] :=
  ⟨(c10_roundtrip [Char.ofNat 97]).1 (by decide) (by decide) (by decide) (by decide),
   (c10_roundtrip [Char.ofNat 233]).2 (by decide)⟩

end ContentDisposition
